import Mathlib

/-!
Verification of the `go-cmd/run` package (`sync.go`): the sequential runner
`RunSync` with its three operations `Run`, `Stop` and `Status`.

The embedding has two layers, both translated directly from `src/sync.go`:

* a pure functional model of one `Run` call (`runFrom`, `RunSync.run`) together
  with the bodies of `Stop` (`RunSync.stop`) and `Status` (`RunSync.statusOf`),
  used for the functional-correctness claims.  The external process primitive
  (package `github.com/go-cmd/cmd`) is out of scope per the specification, so
  the final status delivered by `<-cmd.Start()` for the i-th command is an
  environment parameter `env : Nat → CmdStatus`, and the value the closed-ness
  test `stopped()` observes at the top of loop iteration i is an environment
  parameter `stop : Nat → Bool`.
* a small-step transition system (`Config`, `Step`, `Reach`) whose atomic steps
  are the lock-protected critical sections of `sync.go` plus the blocking wait,
  with `Stop` and `Status` callable from other threads at any time, used for
  the invariant and temporal claims.
-/

namespace GoCmdRun

/-- Model of `cmd.Cmd` as used by `sync.go`: a program name and its arguments
(fields `Name` and `Args`). -/
structure Cmd where
  name : String
  args : List String
deriving Repr, DecidableEq

/-- Model of `cmd.Status` from package `github.com/go-cmd/cmd`: fields
`Cmd`, `PID`, `Complete`, `Exit`, `Error`, `StartTs`, `StopTs`, `Runtime`,
`Stdout`, `Stderr`.  The `error` value is carried as an optional string and
the `float64` runtime as an integer; no claim computes with either, they are
opaque payload.  `Stdout`/`Stderr` are Go slices whose `nil` and empty values
are distinct, hence `Option (List String)`. -/
structure CmdStatus where
  cmd : String
  pid : Int
  complete : Bool
  exit : Int
  error : Option String
  startTs : Int
  stopTs : Int
  runtime : Int
  stdout : Option (List String)
  stderr : Option (List String)
deriving Repr, DecidableEq

/-- The Go zero value of `cmd.Status`: what `make([]cmd.Status, n)` puts in
every slot (sync.go line 46). -/
def zeroStatus : CmdStatus :=
  { cmd := "", pid := 0, complete := false, exit := 0, error := none,
    startTs := 0, stopTs := 0, runtime := 0, stdout := none, stderr := none }

/-- The three sentinel errors of the package (`run.go`): `ErrRunning`
("already running"), `ErrStopped` ("Stop called") and `ErrNonzeroExit`
("non-zero exit").  `Run` returns one of these or `nil` (`Option RunErr`). -/
inductive RunErr where
  | running
  | stopped
  | nonzeroExit
deriving Repr, DecidableEq

/-- Model of the `RunSync` struct (sync.go lines 12-22).  The process handle
`cmd *cmd.Cmd` is carried as `cmdH : Option Nat`, present exactly when the Go
pointer is non-nil and tagged with the index of the command it was created
for; the channel `stopChan` is carried as the boolean `stopClosed` (`true`
iff the channel has been closed).  The mutex itself disappears: the
transition system below makes each lock-protected section one atomic step. -/
structure RunSync where
  stopOnError : Bool
  running : Bool
  cmdH : Option Nat
  cur : Int
  status : List CmdStatus
  stopClosed : Bool
deriving Repr, DecidableEq

/-- Model of `NewRunSync` (sync.go lines 26-32): only `stopOnError` and the
mutex are set; every other field keeps its Go zero value, in particular
`cur = 0` and `status = nil`. -/
def NewRunSync (stopOnError : Bool) : RunSync :=
  { stopOnError := stopOnError, running := false, cmdH := none, cur := 0,
    status := [], stopClosed := false }

/-- The loop of `Run` (sync.go lines 57-78), one equation per iteration.
Arguments: the remaining commands, the index `i` of the next command, the
status array so far, and the current values of the `cur` and `cmd` fields
(threaded so that the final state of a run that executes no command keeps the
prior values, exactly as the Go loop only writes them inside the body).
Per iteration: `stopped()` is consulted (`stop i`); if closed, `Run` returns
`ErrStopped` with the array as is; otherwise the command runs, its final
status `env i` is written at slot `i` (line 68), `cmd`/`cur` are cleared to
`none`/`-1` (lines 70-73), and if `stopOnError` holds and the exit code is
non-zero, `Run` returns `ErrNonzeroExit` (lines 75-77). -/
def runFrom (so : Bool) (env : Nat → CmdStatus) (stop : Nat → Bool) :
    List Cmd → Nat → List CmdStatus → Int → Option Nat →
    List CmdStatus × Int × Option Nat × Option RunErr
  | [], _, st, cur, h => (st, cur, h, none)
  | _ :: rest, i, st, cur, h =>
    if stop i then (st, cur, h, some RunErr.stopped)
    else
      let st1 := st.set i (env i)
      if so ∧ (env i).exit ≠ 0 then (st1, -1, none, some RunErr.nonzeroExit)
      else runFrom so env stop rest (i + 1) st1 (-1) none

/-- Model of `Run` (sync.go lines 39-81).  If the runner is already running
the call returns `(nil, ErrRunning)` touching nothing (lines 40-44).
Otherwise the status array is reallocated to `len(cmds)` zero values, a fresh
`stopChan` is made (line 47, so `stopClosed` resets to `false`; it ends
closed exactly when the loop observed it closed), `running` is set and — via
the deferred unlock — cleared again before returning (lines 46-55), and the
loop runs.  The result triple is (final runner state, returned status slice
or `nil`, returned error or `nil`). -/
def RunSync.run (r : RunSync) (cmds : List Cmd) (env : Nat → CmdStatus)
    (stop : Nat → Bool) : RunSync × Option (List CmdStatus) × Option RunErr :=
  if r.running then (r, none, some RunErr.running)
  else
    let st0 := List.replicate cmds.length zeroStatus
    let out := runFrom r.stopOnError env stop cmds 0 st0 r.cur r.cmdH
    ({ r with
       running := false
       status := out.1
       cur := out.2.1
       cmdH := out.2.2.1
       stopClosed := decide (out.2.2.2 = some RunErr.stopped) },
      some out.1, out.2.2.2)

/-- Model of `Stop` (sync.go lines 85-108).  `termErr` is what the external
primitive's `cmd.Stop()` would report for the live process, if any.  If no
run is active nothing happens and `nil` is returned; otherwise the stop
channel is closed if not already closed, and if a process handle is live its
termination is requested and that error returned, else `nil`. -/
def RunSync.stop (r : RunSync) (termErr : Option String) :
    RunSync × Option String :=
  if r.running = false then (r, none)
  else
    let r1 := { r with stopClosed := true }
    if r.cmdH.isSome then (r1, termErr) else (r1, none)

/-- Model of `Status` (sync.go lines 110-117).  `snap` is the snapshot the
external primitive's `cmd.Status()` would report for the live process.  If a
handle is live, slot `r.cur` of the array is overwritten with `snap` before
the array is returned; otherwise the array is returned as is.  (Go indexes
with the int `r.cur`; the model uses `r.cur.toNat`, which agrees whenever
`0 ≤ r.cur` — the bounds invariant proved below shows every reachable call
with a live handle is in that range.)  Note the return value is the slice
only: this `Status` returns no index. -/
def RunSync.statusOf (r : RunSync) (snap : CmdStatus) :
    RunSync × List CmdStatus :=
  if r.cmdH.isSome then
    let st := r.status.set r.cur.toNat snap
    ({ r with status := st }, st)
  else (r, r.status)

/-- Program counter of the thread executing `Run`, naming the atomic sections
of sync.go.  `check i` is the top of loop iteration `i` (about to evaluate
`r.stopped()`, line 58); `launch i` is about to take the lock and publish the
new handle (lines 63-66); `wait i` is blocked on `<-cmd.Start()` (line 68);
`record i` is after the final status has been written at slot `i` and before
the lock that clears the handle (lines 70-73); `post i` is about to evaluate
the `stopOnError` test (line 75); `idle` is outside `Run`. -/
inductive PC where
  | idle
  | check (i : Nat)
  | launch (i : Nat)
  | wait (i : Nat)
  | record (i : Nat)
  | post (i : Nat)
deriving Repr, DecidableEq

/-- A configuration: the shared runner state, the `Run` thread's program
counter, and the batch of the active (or last) run. -/
structure Config where
  r : RunSync
  pc : PC
  cmds : List Cmd
deriving Repr, DecidableEq

/-- Observable result of a step: a `Run` invocation accepted or rejected, a
return from `Run` with its (status slice, error) pair, a return from `Stop`,
a return from `Status`, or an internal step. -/
inductive Act where
  | tau
  | runCall (cmds : List Cmd)
  | runRejected
  | runRet (st : Option (List CmdStatus)) (e : Option RunErr)
  | stopRet (e : Option String)
  | statusRet (st : List CmdStatus)
deriving Repr, DecidableEq

/-- One atomic step of the system.  The `Run`-thread steps follow sync.go
line by line at the granularity of its lock-protected sections plus the
blocking wait; `stopCall` and `statusCall` may interleave at any time from
other threads (their bodies hold the lock for their whole duration, hence one
step each).  The status delivered on completion and the snapshot/termination
results of the external primitive are arbitrary values chosen by the step. -/
inductive Step : Config → Act → Config → Prop where
  | runBusy (c : Config)
      (h : c.r.running = true) :
      Step c Act.runRejected c
  | runEnter (c : Config) (cs : List Cmd)
      (h1 : c.pc = PC.idle) (h2 : c.r.running = false) :
      Step c (Act.runCall cs)
        ⟨{ c.r with
           status := List.replicate cs.length zeroStatus
           stopClosed := false
           running := true }, PC.check 0, cs⟩
  | checkStop (c : Config) (i : Nat)
      (h1 : c.pc = PC.check i) (h2 : i < c.cmds.length)
      (h3 : c.r.stopClosed = true) :
      Step c (Act.runRet (some c.r.status) (some RunErr.stopped))
        ⟨{ c.r with running := false }, PC.idle, c.cmds⟩
  | exhaust (c : Config) (i : Nat)
      (h1 : c.pc = PC.check i) (h2 : c.cmds.length ≤ i) :
      Step c (Act.runRet (some c.r.status) none)
        ⟨{ c.r with running := false }, PC.idle, c.cmds⟩
  | checkPass (c : Config) (i : Nat)
      (h1 : c.pc = PC.check i) (h2 : i < c.cmds.length)
      (h3 : c.r.stopClosed = false) :
      Step c Act.tau ⟨c.r, PC.launch i, c.cmds⟩
  | launchCmd (c : Config) (i : Nat)
      (h1 : c.pc = PC.launch i) :
      Step c Act.tau
        ⟨{ c.r with cmdH := some i, cur := (i : Int) }, PC.wait i, c.cmds⟩
  | complete (c : Config) (i : Nat) (s : CmdStatus)
      (h1 : c.pc = PC.wait i) :
      Step c Act.tau
        ⟨{ c.r with status := c.r.status.set i s }, PC.record i, c.cmds⟩
  | clearCmd (c : Config) (i : Nat)
      (h1 : c.pc = PC.record i) :
      Step c Act.tau
        ⟨{ c.r with cmdH := none, cur := -1 }, PC.post i, c.cmds⟩
  | postErr (c : Config) (i : Nat)
      (h1 : c.pc = PC.post i) (h2 : c.r.stopOnError = true)
      (h3 : (c.r.status.getD i zeroStatus).exit ≠ 0) :
      Step c (Act.runRet (some c.r.status) (some RunErr.nonzeroExit))
        ⟨{ c.r with running := false }, PC.idle, c.cmds⟩
  | postOk (c : Config) (i : Nat)
      (h1 : c.pc = PC.post i)
      (h2 : c.r.stopOnError = false ∨ (c.r.status.getD i zeroStatus).exit = 0) :
      Step c Act.tau ⟨c.r, PC.check (i + 1), c.cmds⟩
  | stopCall (c : Config) (e : Option String) :
      Step c (Act.stopRet (c.r.stop e).2) ⟨(c.r.stop e).1, c.pc, c.cmds⟩
  | statusCall (c : Config) (snap : CmdStatus) :
      Step c (Act.statusRet (c.r.statusOf snap).2)
        ⟨(c.r.statusOf snap).1, c.pc, c.cmds⟩

/-- Reachable configurations: a freshly constructed runner, closed under
steps. -/
inductive Reach : Config → Prop where
  | init (so : Bool) : Reach ⟨NewRunSync so, PC.idle, []⟩
  | next {c c' : Config} {a : Act} : Reach c → Step c a c' → Reach c'

/-- Every slot of `st` from index `i` on still holds the zero value. -/
def tailZero (st : List CmdStatus) (i : Nat) : Prop :=
  ∀ j, i ≤ j → st.getD j zeroStatus = zeroStatus

/-- The inductive invariant of the system, by program counter: the `running`
flag tracks the phase, the handle is live exactly between launch and clear
with `cur` equal to the live index, the status array always has one slot per
command of the active batch, and slots not yet reached still hold the zero
value. -/
def InvAt : PC → RunSync → List Cmd → Prop
  | PC.idle, r, _ =>
      r.running = false ∧ r.cmdH = none
  | PC.check i, r, cmds =>
      r.running = true ∧ r.cmdH = none ∧ r.status.length = cmds.length ∧
        i ≤ cmds.length ∧ tailZero r.status i
  | PC.launch i, r, cmds =>
      r.running = true ∧ r.cmdH = none ∧ r.status.length = cmds.length ∧
        i < cmds.length ∧ tailZero r.status i
  | PC.wait i, r, cmds =>
      r.running = true ∧ r.cmdH = some i ∧ r.cur = (i : Int) ∧
        r.status.length = cmds.length ∧ i < cmds.length ∧
        tailZero r.status (i + 1)
  | PC.record i, r, cmds =>
      r.running = true ∧ r.cmdH = some i ∧ r.cur = (i : Int) ∧
        r.status.length = cmds.length ∧ i < cmds.length ∧
        tailZero r.status (i + 1)
  | PC.post i, r, cmds =>
      r.running = true ∧ r.cmdH = none ∧ r.cur = -1 ∧
        r.status.length = cmds.length ∧ i < cmds.length ∧
        tailZero r.status (i + 1)

/-- The invariant of a configuration. -/
def Inv (c : Config) : Prop := InvAt c.pc c.r c.cmds

theorem tailZero_mono {st : List CmdStatus} {i k : Nat} (h : tailZero st i)
    (hik : i ≤ k) : tailZero st k :=
  fun j hj => h j (le_trans hik hj)

theorem tailZero_set_lt {st : List CmdStatus} {i k : Nat} (h : tailZero st k)
    (hik : i < k) (a : CmdStatus) : tailZero (st.set i a) k := by
  intro j hj
  rw [List.getD_eq_getElem?_getD, List.getElem?_set_ne (by omega),
    ← List.getD_eq_getElem?_getD]
  exact h j hj

theorem tailZero_replicate (n i : Nat) :
    tailZero (List.replicate n zeroStatus) i := by
  intro j _
  rw [List.getD_eq_getElem?_getD, List.getElem?_replicate]
  split <;> rfl

/-- The body of `Stop` only ever changes the stop channel: it closes it when
a run is active and otherwise leaves the state alone. -/
theorem stop_state (r : RunSync) (e : Option String) :
    (r.stop e).1 = { r with stopClosed := (r.running || r.stopClosed) } := by
  rcases Bool.eq_false_or_eq_true r.running with h | h
  · rcases hc : r.cmdH with _ | i <;> simp [RunSync.stop, h, hc]
  · have he : r.stop e = (r, none) := by
      unfold RunSync.stop
      rw [h]
      simp
    rw [he]
    have hb : (r.running || r.stopClosed) = r.stopClosed := by
      rw [h]
      exact Bool.false_or _
    rw [hb]

/-- Results of `Stop`, by case: nothing to do when no run is active, the
terminate error when a handle is live, `nil` otherwise. -/
theorem stop_ret (r : RunSync) (e : Option String) :
    (r.stop e).2 = if r.running = true then (if r.cmdH.isSome then e else none)
      else none := by
  rcases Bool.eq_false_or_eq_true r.running with h | h
  · rcases hc : r.cmdH with _ | i <;> simp [RunSync.stop, h, hc]
  · simp [RunSync.stop, h]

theorem invAt_ext {pc : PC} {r r' : RunSync} {cmds : List Cmd}
    (h1 : r'.running = r.running) (h2 : r'.cmdH = r.cmdH)
    (h3 : r'.cur = r.cur) (h4 : r'.status = r.status)
    (h : InvAt pc r cmds) : InvAt pc r' cmds := by
  cases pc <;> simpa only [InvAt, h1, h2, h3, h4] using h

/-- Every atomic step preserves the invariant. -/
theorem inv_step {c c' : Config} {a : Act} (hinv : Inv c)
    (hs : Step c a c') : Inv c' := by
  cases hs with
  | runBusy h => exact hinv
  | runEnter cs h1 h2 =>
    unfold Inv at hinv ⊢
    rw [h1] at hinv
    exact ⟨rfl, hinv.2, by simp, Nat.zero_le _, tailZero_replicate _ _⟩
  | checkStop i h1 h2 h3 =>
    unfold Inv at hinv ⊢
    rw [h1] at hinv
    exact ⟨rfl, hinv.2.1⟩
  | exhaust i h1 h2 =>
    unfold Inv at hinv ⊢
    rw [h1] at hinv
    exact ⟨rfl, hinv.2.1⟩
  | checkPass i h1 h2 h3 =>
    unfold Inv at hinv ⊢
    rw [h1] at hinv
    exact ⟨hinv.1, hinv.2.1, hinv.2.2.1, h2, hinv.2.2.2.2⟩
  | launchCmd i h1 =>
    unfold Inv at hinv ⊢
    rw [h1] at hinv
    exact ⟨hinv.1, rfl, rfl, hinv.2.2.1, hinv.2.2.2.1,
      tailZero_mono hinv.2.2.2.2 (Nat.le_succ i)⟩
  | complete i s h1 =>
    unfold Inv at hinv ⊢
    rw [h1] at hinv
    exact ⟨hinv.1, hinv.2.1, hinv.2.2.1, by simp [hinv.2.2.2.1],
      hinv.2.2.2.2.1, tailZero_set_lt hinv.2.2.2.2.2 (Nat.lt_succ_self i) s⟩
  | clearCmd i h1 =>
    unfold Inv at hinv ⊢
    rw [h1] at hinv
    exact ⟨hinv.1, rfl, rfl, hinv.2.2.2.1, hinv.2.2.2.2.1, hinv.2.2.2.2.2⟩
  | postErr i h1 h2 h3 =>
    unfold Inv at hinv ⊢
    rw [h1] at hinv
    exact ⟨rfl, hinv.2.1⟩
  | postOk i h1 h2 =>
    unfold Inv at hinv ⊢
    rw [h1] at hinv
    exact ⟨hinv.1, hinv.2.1, hinv.2.2.2.1, hinv.2.2.2.2.1,
      hinv.2.2.2.2.2⟩
  | stopCall e =>
    unfold Inv at hinv ⊢
    exact invAt_ext (r := c.r) (by rw [stop_state]) (by rw [stop_state])
      (by rw [stop_state]) (by rw [stop_state]) hinv
  | statusCall snap =>
    rcases hc : c.r.cmdH with _ | i
    · have hsame : (c.r.statusOf snap).1 = c.r := by
        unfold RunSync.statusOf
        simp [hc]
      unfold Inv at hinv ⊢
      exact invAt_ext (by rw [hsame]) (by rw [hsame]) (by rw [hsame])
        (by rw [hsame]) hinv
    · have hst : (c.r.statusOf snap).1 =
          { c.r with status := c.r.status.set c.r.cur.toNat snap } := by
        unfold RunSync.statusOf
        simp [hc]
      unfold Inv at hinv ⊢
      rcases hpc : c.pc with _ | i0 | i0 | i0 | i0 | i0 <;>
        rw [hpc] at hinv <;> simp only [InvAt] at hinv ⊢ <;> rw [hst]
      · exact absurd (hc.symm.trans hinv.2) (by simp)
      · exact absurd (hc.symm.trans hinv.2.1) (by simp)
      · exact absurd (hc.symm.trans hinv.2.1) (by simp)
      · obtain ⟨ha, hb, hcur, hlen, hlt, htz⟩ := hinv
        refine ⟨ha, hb, hcur, by simp [hlen], hlt, ?_⟩
        have hn : c.r.cur.toNat = i0 := by rw [hcur]; simp
        rw [hn]
        exact tailZero_set_lt htz (Nat.lt_succ_self i0) snap
      · obtain ⟨ha, hb, hcur, hlen, hlt, htz⟩ := hinv
        refine ⟨ha, hb, hcur, by simp [hlen], hlt, ?_⟩
        have hn : c.r.cur.toNat = i0 := by rw [hcur]; simp
        rw [hn]
        exact tailZero_set_lt htz (Nat.lt_succ_self i0) snap
      · exact absurd (hc.symm.trans hinv.2.1) (by simp)

/-- Every reachable configuration satisfies the invariant. -/
theorem reach_inv {c : Config} (h : Reach c) : Inv c := by
  induction h with
  | init so => exact ⟨rfl, rfl⟩
  | next hr hs ih => exact inv_step ih hs

/-- Characterization of the loop when nothing interrupts it: no stop signal
observed and, when `stopOnError` is set, only zero exit codes.  Every
remaining command executes, its final status lands in its slot, all other
slots are untouched, and the loop reports no error.  The last two conjuncts
record the final `cur` and `cmd` fields. -/
theorem runFrom_all (so : Bool) (env : Nat → CmdStatus) (stop : Nat → Bool) :
    ∀ (rest : List Cmd) (i : Nat) (st : List CmdStatus) (cur : Int)
      (h : Option Nat),
      i + rest.length ≤ st.length →
      (∀ j, i ≤ j → j < i + rest.length → stop j = false) →
      (∀ j, i ≤ j → j < i + rest.length → so = true → (env j).exit = 0) →
      (runFrom so env stop rest i st cur h).2.2.2 = none ∧
      (runFrom so env stop rest i st cur h).1.length = st.length ∧
      (∀ j, i ≤ j → j < i + rest.length →
        (runFrom so env stop rest i st cur h).1[j]? = some (env j)) ∧
      (∀ j, j < i ∨ i + rest.length ≤ j →
        (runFrom so env stop rest i st cur h).1[j]? = st[j]?) ∧
      (0 < rest.length → (runFrom so env stop rest i st cur h).2.1 = -1 ∧
        (runFrom so env stop rest i st cur h).2.2.1 = none) ∧
      (rest.length = 0 → (runFrom so env stop rest i st cur h).2.1 = cur ∧
        (runFrom so env stop rest i st cur h).2.2.1 = h)
  | [], i, st, cur, h, hlen, hstop, hexit => by
    refine ⟨rfl, rfl, ?_, fun j _ => rfl, by simp, fun _ => ⟨rfl, rfl⟩⟩
    intro j h1 h2
    simp only [List.length_nil] at h2
    omega
  | cm :: rest, i, st, cur, h, hlen, hstop, hexit => by
    have hs0 : stop i = false :=
      hstop i le_rfl (by simp only [List.length_cons]; omega)
    have hcond : ¬(so = true ∧ (env i).exit ≠ 0) := by
      rintro ⟨hso, hne⟩
      exact hne (hexit i le_rfl (by simp only [List.length_cons]; omega) hso)
    have hilt : i < st.length := by
      simp only [List.length_cons] at hlen
      omega
    have heq : runFrom so env stop (cm :: rest) i st cur h =
        runFrom so env stop rest (i + 1) (st.set i (env i)) (-1) none := by
      rw [runFrom, if_neg (by simp [hs0]), if_neg hcond]
    have hlen1 : (i + 1) + rest.length ≤ (st.set i (env i)).length := by
      rw [List.length_set]
      simp only [List.length_cons] at hlen
      omega
    have ih := runFrom_all so env stop rest (i + 1) (st.set i (env i)) (-1)
      none hlen1
      (fun j h1 h2 => hstop j (by omega)
        (by simp only [List.length_cons]; omega))
      (fun j h1 h2 => hexit j (by omega)
        (by simp only [List.length_cons]; omega))
    obtain ⟨ihres, ihlen, ihexec, ihkeep, ihcur, ihnil⟩ := ih
    rw [heq]
    refine ⟨ihres, by rw [ihlen, List.length_set], ?_, ?_, ?_, by simp⟩
    · intro j h1 h2
      rcases Nat.lt_or_ge j (i + 1) with hj | hj
      · have hji : j = i := by omega
        rw [hji, ihkeep i (Or.inl (by omega)),
          List.getElem?_set_eq_of_lt (env i) hilt]
      · refine ihexec j hj ?_
        simp only [List.length_cons] at h2
        omega
    · intro j hj
      rcases hj with hj | hj
      · have hset : (st.set i (env i))[j]? = st[j]? :=
          List.getElem?_set_ne (by omega)
        rw [ihkeep j (Or.inl (by omega)), hset]
      · simp only [List.length_cons] at hj
        have hset : (st.set i (env i))[j]? = st[j]? :=
          List.getElem?_set_ne (by omega)
        refine (ihkeep j (Or.inr (by omega))).trans hset
    · intro _
      rcases Nat.eq_zero_or_pos rest.length with hz | hz
      · exact ihnil hz
      · exact ihcur hz

/-- Characterization of the loop when `stopOnError` is set and command `k` is
the first with a non-zero exit (no stop signal observed up to and including
iteration `k`): commands `i..k` execute and record their final statuses, the
loop returns `ErrNonzeroExit`, every other slot is untouched, and the
`cur`/`cmd` fields end cleared. -/
theorem runFrom_abort (so : Bool) (env : Nat → CmdStatus) (stop : Nat → Bool) :
    ∀ (rest : List Cmd) (i : Nat) (st : List CmdStatus) (cur : Int)
      (h : Option Nat) (k : Nat),
      so = true → i ≤ k → k < i + rest.length → i + rest.length ≤ st.length →
      (∀ j, i ≤ j → j ≤ k → stop j = false) →
      (∀ j, i ≤ j → j < k → (env j).exit = 0) →
      (env k).exit ≠ 0 →
      (runFrom so env stop rest i st cur h).2.2.2 = some RunErr.nonzeroExit ∧
      (runFrom so env stop rest i st cur h).1.length = st.length ∧
      (∀ j, i ≤ j → j ≤ k →
        (runFrom so env stop rest i st cur h).1[j]? = some (env j)) ∧
      (∀ j, j < i ∨ k < j →
        (runFrom so env stop rest i st cur h).1[j]? = st[j]?) ∧
      (runFrom so env stop rest i st cur h).2.1 = -1 ∧
      (runFrom so env stop rest i st cur h).2.2.1 = none
  | [], i, st, cur, h, k, hso, hik, hk, hlen, hstop, hzero, hbad => by
    simp only [List.length_nil] at hk
    omega
  | cm :: rest, i, st, cur, h, k, hso, hik, hk, hlen, hstop, hzero, hbad => by
    have hs0 : stop i = false := hstop i le_rfl hik
    have hilt : i < st.length := by
      simp only [List.length_cons] at hlen
      omega
    rcases Nat.eq_or_lt_of_le hik with hik1 | hik1
    · subst hik1
      have heq : runFrom so env stop (cm :: rest) i st cur h =
          (st.set i (env i), -1, none, some RunErr.nonzeroExit) := by
        rw [runFrom, if_neg (by simp [hs0]), if_pos ⟨hso, hbad⟩]
      rw [heq]
      refine ⟨rfl, List.length_set st i (env i), ?_, ?_, rfl, rfl⟩
      · intro j h1 h2
        have hji : j = i := by omega
        rw [hji]
        exact List.getElem?_set_eq_of_lt (env i) hilt
      · intro j hj
        exact List.getElem?_set_ne (by omega)
    · have hcond : ¬(so = true ∧ (env i).exit ≠ 0) := by
        rintro ⟨_, hne⟩
        exact hne (hzero i le_rfl hik1)
      have heq : runFrom so env stop (cm :: rest) i st cur h =
          runFrom so env stop rest (i + 1) (st.set i (env i)) (-1) none := by
        rw [runFrom, if_neg (by simp [hs0]), if_neg hcond]
      have hlen1 : (i + 1) + rest.length ≤ (st.set i (env i)).length := by
        rw [List.length_set]
        simp only [List.length_cons] at hlen
        omega
      have ih := runFrom_abort so env stop rest (i + 1) (st.set i (env i))
        (-1) none k hso hik1 (by simp only [List.length_cons] at hk; omega)
        hlen1 (fun j h1 h2 => hstop j (by omega) h2)
        (fun j h1 h2 => hzero j (by omega) h2) hbad
      obtain ⟨ihres, ihlen, ihexec, ihkeep, ihcur, ihh⟩ := ih
      rw [heq]
      refine ⟨ihres, by rw [ihlen, List.length_set], ?_, ?_, ihcur, ihh⟩
      · intro j h1 h2
        rcases Nat.lt_or_ge j (i + 1) with hj | hj
        · have hji : j = i := by omega
          rw [hji, ihkeep i (Or.inl (by omega)),
            List.getElem?_set_eq_of_lt (env i) hilt]
        · exact ihexec j hj h2
      · intro j hj
        rcases hj with hj | hj
        · have hset : (st.set i (env i))[j]? = st[j]? :=
            List.getElem?_set_ne (by omega)
          rw [ihkeep j (Or.inl (by omega)), hset]
        · have hset : (st.set i (env i))[j]? = st[j]? :=
            List.getElem?_set_ne (by omega)
          exact (ihkeep j (Or.inr hj)).trans hset

/-- Characterization of the loop when the stop signal is first observed at
iteration `k` (and `stopOnError` did not abort earlier): commands `i..k-1`
execute and record their final statuses, command `k` is never launched, the
loop returns `ErrStopped`, and every slot from `k` on is untouched. -/
theorem runFrom_stopped (so : Bool) (env : Nat → CmdStatus)
    (stop : Nat → Bool) :
    ∀ (rest : List Cmd) (i : Nat) (st : List CmdStatus) (cur : Int)
      (h : Option Nat) (k : Nat),
      i ≤ k → k < i + rest.length → i + rest.length ≤ st.length →
      (∀ j, i ≤ j → j < k → stop j = false) →
      stop k = true →
      (∀ j, i ≤ j → j < k → so = true → (env j).exit = 0) →
      (runFrom so env stop rest i st cur h).2.2.2 = some RunErr.stopped ∧
      (runFrom so env stop rest i st cur h).1.length = st.length ∧
      (∀ j, i ≤ j → j < k →
        (runFrom so env stop rest i st cur h).1[j]? = some (env j)) ∧
      (∀ j, j < i ∨ k ≤ j →
        (runFrom so env stop rest i st cur h).1[j]? = st[j]?) ∧
      (i < k → (runFrom so env stop rest i st cur h).2.1 = -1 ∧
        (runFrom so env stop rest i st cur h).2.2.1 = none) ∧
      (k = i → (runFrom so env stop rest i st cur h).2.1 = cur ∧
        (runFrom so env stop rest i st cur h).2.2.1 = h)
  | [], i, st, cur, h, k, hik, hk, hlen, hstop, hsk, hzero => by
    simp only [List.length_nil] at hk
    omega
  | cm :: rest, i, st, cur, h, k, hik, hk, hlen, hstop, hsk, hzero => by
    rcases Nat.eq_or_lt_of_le hik with hik1 | hik1
    · subst hik1
      have heq : runFrom so env stop (cm :: rest) i st cur h =
          (st, cur, h, some RunErr.stopped) := by
        rw [runFrom, if_pos hsk]
      rw [heq]
      exact ⟨rfl, rfl, fun j h1 h2 => by omega, fun j _ => rfl,
        fun hlt => by omega, fun _ => ⟨rfl, rfl⟩⟩
    · have hs0 : stop i = false := hstop i le_rfl hik1
      have hilt : i < st.length := by
        simp only [List.length_cons] at hlen
        omega
      have hcond : ¬(so = true ∧ (env i).exit ≠ 0) := by
        rintro ⟨hso, hne⟩
        exact hne (hzero i le_rfl hik1 hso)
      have heq : runFrom so env stop (cm :: rest) i st cur h =
          runFrom so env stop rest (i + 1) (st.set i (env i)) (-1) none := by
        rw [runFrom, if_neg (by simp [hs0]), if_neg hcond]
      have hlen1 : (i + 1) + rest.length ≤ (st.set i (env i)).length := by
        rw [List.length_set]
        simp only [List.length_cons] at hlen
        omega
      have ih := runFrom_stopped so env stop rest (i + 1) (st.set i (env i))
        (-1) none k hik1 (by simp only [List.length_cons] at hk; omega)
        hlen1 (fun j h1 h2 => hstop j (by omega) h2) hsk
        (fun j h1 h2 => hzero j (by omega) h2)
      obtain ⟨ihres, ihlen, ihexec, ihkeep, ihlt, iheq⟩ := ih
      rw [heq]
      refine ⟨ihres, by rw [ihlen, List.length_set], ?_, ?_, ?_, ?_⟩
      · intro j h1 h2
        rcases Nat.lt_or_ge j (i + 1) with hj | hj
        · have hji : j = i := by omega
          rw [hji, ihkeep i (Or.inl (by omega)),
            List.getElem?_set_eq_of_lt (env i) hilt]
        · exact ihexec j hj h2
      · intro j hj
        rcases hj with hj | hj
        · have hset : (st.set i (env i))[j]? = st[j]? :=
            List.getElem?_set_ne (by omega)
          rw [ihkeep j (Or.inl (by omega)), hset]
        · have hset : (st.set i (env i))[j]? = st[j]? :=
            List.getElem?_set_ne (by omega)
          exact (ihkeep j (Or.inr (by omega))).trans hset
      · intro _
        rcases Nat.eq_or_lt_of_le hik1 with hk1 | hk1
        · exact iheq hk1.symm
        · exact ihlt hk1
      · intro hki
        omega

/-- The status-array and error components of the loop do not depend on the
incoming `cur` and `cmd` fields (those are only threaded through). -/
theorem runFrom_indep (so : Bool) (env : Nat → CmdStatus)
    (stop : Nat → Bool) :
    ∀ (rest : List Cmd) (i : Nat) (st : List CmdStatus) (cur : Int)
      (h : Option Nat) (cur2 : Int) (h2 : Option Nat),
      (runFrom so env stop rest i st cur h).1 =
        (runFrom so env stop rest i st cur2 h2).1 ∧
      (runFrom so env stop rest i st cur h).2.2.2 =
        (runFrom so env stop rest i st cur2 h2).2.2.2
  | [], i, st, cur, h, cur2, h2 => ⟨rfl, rfl⟩
  | cm :: rest, i, st, cur, h, cur2, h2 => by
    by_cases hs : stop i = true
    · constructor <;> simp [runFrom, hs]
    · have hs0 : stop i = false := by
        simpa using hs
      by_cases hc : so = true ∧ (env i).exit ≠ 0
      · constructor <;> simp [runFrom, hs0, hc]
      · have e1 : runFrom so env stop (cm :: rest) i st cur h =
            runFrom so env stop rest (i + 1) (st.set i (env i)) (-1) none := by
          rw [runFrom, if_neg (by simp [hs0]), if_neg hc]
        have e2 : runFrom so env stop (cm :: rest) i st cur2 h2 =
            runFrom so env stop rest (i + 1) (st.set i (env i)) (-1) none := by
          rw [runFrom, if_neg (by simp [hs0]), if_neg hc]
        rw [e1, e2]
        exact ⟨rfl, rfl⟩

/-- The loop never reports `ErrRunning`: that error arises only from the
re-entrancy guard of `Run` itself. -/
theorem runFrom_ne_running (so : Bool) (env : Nat → CmdStatus)
    (stop : Nat → Bool) :
    ∀ (rest : List Cmd) (i : Nat) (st : List CmdStatus) (cur : Int)
      (h : Option Nat),
      (runFrom so env stop rest i st cur h).2.2.2 ≠ some RunErr.running
  | [], i, st, cur, h => by simp [runFrom]
  | cm :: rest, i, st, cur, h => by
    by_cases hs : stop i = true
    · simp [runFrom, hs]
    · have hs0 : stop i = false := by
        simpa using hs
      by_cases hc : so = true ∧ (env i).exit ≠ 0
      · simp [runFrom, hs0, hc]
      · have e1 : runFrom so env stop (cm :: rest) i st cur h =
            runFrom so env stop rest (i + 1) (st.set i (env i)) (-1) none := by
          rw [runFrom, if_neg (by simp [hs0]), if_neg hc]
        rw [e1]
        exact runFrom_ne_running so env stop rest (i + 1) _ (-1) none

/-- Once the loop has executed a command, the `cur` and `cmd` fields it
reports stay cleared (`-1` and `none`). -/
theorem runFrom_clear (so : Bool) (env : Nat → CmdStatus)
    (stop : Nat → Bool) :
    ∀ (rest : List Cmd) (i : Nat) (st : List CmdStatus),
      (runFrom so env stop rest i st (-1) none).2.1 = -1 ∧
      (runFrom so env stop rest i st (-1) none).2.2.1 = none
  | [], i, st => ⟨rfl, rfl⟩
  | cm :: rest, i, st => by
    by_cases hs : stop i = true
    · constructor <;> simp [runFrom, hs]
    · have hs0 : stop i = false := by
        simpa using hs
      by_cases hc : so = true ∧ (env i).exit ≠ 0
      · constructor <;> simp [runFrom, hs0, hc]
      · have e1 : runFrom so env stop (cm :: rest) i st (-1) none =
            runFrom so env stop rest (i + 1) (st.set i (env i)) (-1) none := by
          rw [runFrom, if_neg (by simp [hs0]), if_neg hc]
        rw [e1]
        exact runFrom_clear so env stop rest (i + 1) _

/-- The loop output of an accepted `Run` call: the loop starts at index 0 on
a freshly allocated array of `len(cmds)` zero values (sync.go line 46). -/
def runOut (r : RunSync) (cmds : List Cmd) (env : Nat → CmdStatus)
    (stop : Nat → Bool) : List CmdStatus × Int × Option Nat × Option RunErr :=
  runFrom r.stopOnError env stop cmds 0
    (List.replicate cmds.length zeroStatus) r.cur r.cmdH

/-- An accepted `Run` call (runner not already running) is the loop output
packaged with the final runner state. -/
theorem run_eq (r : RunSync) (cmds : List Cmd) (env : Nat → CmdStatus)
    (stop : Nat → Bool) (hr : r.running = false) :
    r.run cmds env stop =
      ({ r with
         running := false
         status := (runOut r cmds env stop).1
         cur := (runOut r cmds env stop).2.1
         cmdH := (runOut r cmds env stop).2.2.1
         stopClosed :=
           decide ((runOut r cmds env stop).2.2.2 = some RunErr.stopped) },
        some (runOut r cmds env stop).1, (runOut r cmds env stop).2.2.2) := by
  unfold RunSync.run
  rw [if_neg (by rw [hr]; simp)]
  rfl

theorem replicate_getElem_zero {n j : Nat} (hj : j < n) :
    (List.replicate n zeroStatus)[j]? = some zeroStatus := by
  simp [List.getElem?_replicate, hj]

theorem run_err_eq (r : RunSync) (cmds : List Cmd) (env : Nat → CmdStatus)
    (stop : Nat → Bool) (hr : r.running = false) :
    (r.run cmds env stop).2.2 =
      (runFrom r.stopOnError env stop cmds 0
        (List.replicate cmds.length zeroStatus) r.cur r.cmdH).2.2.2 := by
  rw [run_eq r cmds env stop hr]
  rfl

theorem run_statusArr_eq (r : RunSync) (cmds : List Cmd)
    (env : Nat → CmdStatus) (stop : Nat → Bool) (hr : r.running = false) :
    (r.run cmds env stop).1.status =
      (runFrom r.stopOnError env stop cmds 0
        (List.replicate cmds.length zeroStatus) r.cur r.cmdH).1 := by
  rw [run_eq r cmds env stop hr]
  rfl

theorem run_ret_eq (r : RunSync) (cmds : List Cmd) (env : Nat → CmdStatus)
    (stop : Nat → Bool) (hr : r.running = false) :
    (r.run cmds env stop).2.1 =
      some (runFrom r.stopOnError env stop cmds 0
        (List.replicate cmds.length zeroStatus) r.cur r.cmdH).1 := by
  rw [run_eq r cmds env stop hr]
  rfl

theorem run_cur_eq (r : RunSync) (cmds : List Cmd) (env : Nat → CmdStatus)
    (stop : Nat → Bool) (hr : r.running = false) :
    (r.run cmds env stop).1.cur =
      (runFrom r.stopOnError env stop cmds 0
        (List.replicate cmds.length zeroStatus) r.cur r.cmdH).2.1 := by
  rw [run_eq r cmds env stop hr]
  rfl

theorem run_cmdH_eq (r : RunSync) (cmds : List Cmd) (env : Nat → CmdStatus)
    (stop : Nat → Bool) (hr : r.running = false) :
    (r.run cmds env stop).1.cmdH =
      (runFrom r.stopOnError env stop cmds 0
        (List.replicate cmds.length zeroStatus) r.cur r.cmdH).2.2.1 := by
  rw [run_eq r cmds env stop hr]
  rfl

theorem run_running_eq (r : RunSync) (cmds : List Cmd) (env : Nat → CmdStatus)
    (stop : Nat → Bool) (hr : r.running = false) :
    (r.run cmds env stop).1.running = false := by
  rw [run_eq r cmds env stop hr]

theorem run_so_eq (r : RunSync) (cmds : List Cmd) (env : Nat → CmdStatus)
    (stop : Nat → Bool) (hr : r.running = false) :
    (r.run cmds env stop).1.stopOnError = r.stopOnError := by
  rw [run_eq r cmds env stop hr]

/-- General shape of any loop outcome: some prefix of `m` commands executed
and recorded their final statuses, every slot outside that prefix is
untouched, and the array keeps its length. -/
theorem runFrom_general (so : Bool) (env : Nat → CmdStatus)
    (stop : Nat → Bool) :
    ∀ (rest : List Cmd) (i : Nat) (st : List CmdStatus) (cur : Int)
      (h : Option Nat),
      i + rest.length ≤ st.length →
      ∃ m, m ≤ rest.length ∧
        (runFrom so env stop rest i st cur h).1.length = st.length ∧
        (∀ j, i ≤ j → j < i + m →
          (runFrom so env stop rest i st cur h).1[j]? = some (env j)) ∧
        (∀ j, j < i ∨ i + m ≤ j →
          (runFrom so env stop rest i st cur h).1[j]? = st[j]?)
  | [], i, st, cur, h, hlen =>
    ⟨0, le_rfl, rfl, fun j h1 h2 => by omega, fun j _ => rfl⟩
  | cm :: rest, i, st, cur, h, hlen => by
    have hilt : i < st.length := by
      simp only [List.length_cons] at hlen
      omega
    by_cases hs : stop i = true
    · refine ⟨0, Nat.zero_le _, ?_, fun j h1 h2 => by omega, fun j _ => ?_⟩ <;>
        simp [runFrom, hs]
    · have hs0 : stop i = false := by
        simpa using hs
      by_cases hc : so = true ∧ (env i).exit ≠ 0
      · have heq : runFrom so env stop (cm :: rest) i st cur h =
            (st.set i (env i), -1, none, some RunErr.nonzeroExit) := by
          rw [runFrom, if_neg (by simp [hs0]), if_pos hc]
        refine ⟨1, by simp, ?_, ?_, ?_⟩
        · rw [heq]
          exact List.length_set st i (env i)
        · intro j h1 h2
          have hji : j = i := by omega
          rw [heq, hji]
          exact List.getElem?_set_eq_of_lt (env i) hilt
        · intro j hj
          rw [heq]
          exact List.getElem?_set_ne (by omega)
      · have heq : runFrom so env stop (cm :: rest) i st cur h =
            runFrom so env stop rest (i + 1) (st.set i (env i)) (-1) none := by
          rw [runFrom, if_neg (by simp [hs0]), if_neg hc]
        have hlen1 : (i + 1) + rest.length ≤ (st.set i (env i)).length := by
          rw [List.length_set]
          simp only [List.length_cons] at hlen
          omega
        obtain ⟨m, hm, ihlen, ihexec, ihkeep⟩ :=
          runFrom_general so env stop rest (i + 1) (st.set i (env i)) (-1)
            none hlen1
        refine ⟨m + 1, by simp [Nat.succ_le_succ hm], ?_, ?_, ?_⟩
        · rw [heq, ihlen, List.length_set]
        · intro j h1 h2
          rw [heq]
          rcases Nat.lt_or_ge j (i + 1) with hj | hj
          · have hji : j = i := by omega
            rw [hji, ihkeep i (Or.inl (by omega)),
              List.getElem?_set_eq_of_lt (env i) hilt]
          · exact ihexec j hj (by omega)
        · intro j hj
          rw [heq]
          rcases hj with hj | hj
          · have hset : (st.set i (env i))[j]? = st[j]? :=
              List.getElem?_set_ne (by omega)
            rw [ihkeep j (Or.inl (by omega)), hset]
          · have hset : (st.set i (env i))[j]? = st[j]? :=
              List.getElem?_set_ne (by omega)
            exact (ihkeep j (Or.inr (by omega))).trans hset

/-- A concrete two-command batch, `[false, echo hello]`, as in the tests. -/
def demoCmds : List Cmd :=
  [{ name := "false", args := [] }, { name := "echo", args := ["hello"] }]

/-- Final status the primitive would report for `false`: complete, exit 1. -/
def demoStatus0 : CmdStatus :=
  { cmd := "false", pid := 10, complete := true, exit := 1, error := none,
    startTs := 1, stopTs := 2, runtime := 1, stdout := some [],
    stderr := some [] }

/-- Final status the primitive would report for `echo hello`. -/
def demoStatus1 : CmdStatus :=
  { cmd := "echo", pid := 11, complete := true, exit := 0, error := none,
    startTs := 3, stopTs := 4, runtime := 1, stdout := some ["hello"],
    stderr := some [] }

/-- Environment delivering the two demo statuses. -/
def demoEnv : Nat → CmdStatus := fun i =>
  if i = 0 then demoStatus0 else demoStatus1

/-- Claim C8: a `Run` call while another run is in progress fails immediately
with `ErrRunning` (and a `nil` status slice), changes no runner state at all
— the returned state is the argument state, so status array, cancellation
signal, current index and process handle are untouched — and, in the
concurrent model, the rejected call is a stutter step: the configuration
after it is the configuration before it, so the first call's eventual
outcome is unaffected. -/
theorem run_rejected_while_running (r : RunSync) (cmds : List Cmd)
    (env : Nat → CmdStatus) (stop : Nat → Bool) (h : r.running = true) :
    r.run cmds env stop = (r, none, some RunErr.running) ∧
    (∀ c c' : Config, Step c Act.runRejected c' → c' = c) := by
  constructor
  · unfold RunSync.run
    rw [if_pos (by rw [h])]
  · intro c c' hs
    cases hs
    rfl

/-- Witness for C8 at a concrete busy runner. -/
theorem run_rejected_while_running_witness :
    ({ stopOnError := true, running := true, cmdH := none, cur := 0,
       status := [], stopClosed := false } : RunSync).run demoCmds demoEnv
        (fun _ => false) =
      ({ stopOnError := true, running := true, cmdH := none, cur := 0,
         status := [], stopClosed := false }, none, some RunErr.running) :=
  (run_rejected_while_running _ demoCmds demoEnv (fun _ => false) rfl).1

/-- Claim C3: every `Run` call returns exactly one of the four outcomes —
`nil`, `ErrRunning`, `ErrStopped`, `ErrNonzeroExit` — and never any other
error; on the rejected call nothing ran and the slice is `nil`, and on every
accepted call the commands that did execute (always a prefix, of some length
`m`) have their final statuses in the returned array while the rest of the
slots hold the pre-filled initial value, so status and error are never
mutually exclusive. -/
theorem run_outcomes (r : RunSync) (cmds : List Cmd) (env : Nat → CmdStatus)
    (stop : Nat → Bool) :
    (r.running = true → r.run cmds env stop = (r, none, some RunErr.running)) ∧
    (r.running = false →
      (r.run cmds env stop).2.1 = some (r.run cmds env stop).1.status ∧
      (r.run cmds env stop).1.status.length = cmds.length ∧
      (r.run cmds env stop).2.2 ≠ some RunErr.running ∧
      ((r.run cmds env stop).2.2 = none ∨
        (r.run cmds env stop).2.2 = some RunErr.stopped ∨
        (r.run cmds env stop).2.2 = some RunErr.nonzeroExit) ∧
      ∃ m, m ≤ cmds.length ∧
        (∀ j, j < m →
          (r.run cmds env stop).1.status[j]? = some (env j)) ∧
        (∀ j, m ≤ j → j < cmds.length →
          (r.run cmds env stop).1.status[j]? = some zeroStatus)) := by
  constructor
  · intro h
    unfold RunSync.run
    rw [if_pos (by rw [h])]
  · intro hr
    rw [run_ret_eq r cmds env stop hr, run_statusArr_eq r cmds env stop hr,
      run_err_eq r cmds env stop hr]
    have hnr := runFrom_ne_running r.stopOnError env stop cmds 0
      (List.replicate cmds.length zeroStatus) r.cur r.cmdH
    obtain ⟨m, hm, hlen, hexec, hkeep⟩ :=
      runFrom_general r.stopOnError env stop cmds 0
        (List.replicate cmds.length zeroStatus) r.cur r.cmdH (by simp)
    refine ⟨rfl, by rw [hlen]; simp, hnr, ?_, m, hm, ?_, ?_⟩
    · rcases hres : (runFrom r.stopOnError env stop cmds 0
          (List.replicate cmds.length zeroStatus) r.cur r.cmdH).2.2.2
          with _ | e
      · exact Or.inl rfl
      · cases e
        · exact absurd hres hnr
        · exact Or.inr (Or.inl rfl)
        · exact Or.inr (Or.inr rfl)
    · intro j hj
      exact hexec j (Nat.zero_le j) (by omega)
    · intro j hj hjl
      exact (hkeep j (Or.inr (by omega))).trans (replicate_getElem_zero hjl)

/-- Witness for C3 on the accepted branch at a concrete batch. -/
theorem run_outcomes_witness :
    ((NewRunSync false).run demoCmds demoEnv (fun _ => false)).2.1 =
      some ((NewRunSync false).run demoCmds demoEnv (fun _ => false)).1.status ∧
    ((NewRunSync false).run demoCmds demoEnv
      (fun _ => false)).1.status.length = 2 ∧
    ((NewRunSync false).run demoCmds demoEnv (fun _ => false)).2.2 ≠
      some RunErr.running := by
  have h := (run_outcomes (NewRunSync false) demoCmds demoEnv
    (fun _ => false)).2 rfl
  exact ⟨h.1, h.2.1, h.2.2.1⟩

/-- Claim C1: `Run` honors the `stopOnError` flag.  With `stopOnError = true`
and `k` the first index whose final exit code is non-zero (no stop signal up
to `k`), the call returns `ErrNonzeroExit`, the returned slice is the status
array, slots `0..k` hold the recorded final statuses (hence their exit
codes), and slots `k+1..` still hold the pre-filled initial ("not started")
value.  With `stopOnError = false` and no cancellation, the call returns
`nil`, every command is attempted and its final status recorded, and — since
the primitive marks a command that ran to completion as complete — every
slot has `complete = true` regardless of exit codes. -/
theorem run_honors_stopOnError (r : RunSync) (cmds : List Cmd)
    (env : Nat → CmdStatus) (stop : Nat → Bool) (hr : r.running = false) :
    (∀ k, r.stopOnError = true → k < cmds.length →
      (∀ i, i ≤ k → stop i = false) →
      (∀ i, i < k → (env i).exit = 0) → (env k).exit ≠ 0 →
      (r.run cmds env stop).2.2 = some RunErr.nonzeroExit ∧
      (r.run cmds env stop).2.1 = some (r.run cmds env stop).1.status ∧
      (r.run cmds env stop).1.status.length = cmds.length ∧
      (∀ i, i ≤ k →
        (r.run cmds env stop).1.status[i]? = some (env i)) ∧
      (∀ j, k < j → j < cmds.length →
        (r.run cmds env stop).1.status[j]? = some zeroStatus)) ∧
    (r.stopOnError = false → (∀ i, stop i = false) →
      (r.run cmds env stop).2.2 = none ∧
      (r.run cmds env stop).2.1 = some (r.run cmds env stop).1.status ∧
      (r.run cmds env stop).1.status.length = cmds.length ∧
      (∀ i, i < cmds.length →
        (r.run cmds env stop).1.status[i]? = some (env i)) ∧
      ((∀ i, (env i).complete = true) → ∀ i, i < cmds.length →
        ((r.run cmds env stop).1.status.getD i zeroStatus).complete =
          true)) := by
  constructor
  · intro k hso hk hstop hzero hbad
    rw [run_err_eq r cmds env stop hr, run_ret_eq r cmds env stop hr,
      run_statusArr_eq r cmds env stop hr]
    have hab := runFrom_abort r.stopOnError env stop cmds 0
      (List.replicate cmds.length zeroStatus) r.cur r.cmdH k hso
      (Nat.zero_le k) (by omega) (by simp)
      (fun j _ hj => hstop j hj) (fun j _ hj => hzero j hj) hbad
    obtain ⟨hres, hlen, hexec, hkeep, _, _⟩ := hab
    refine ⟨hres, rfl, by rw [hlen]; simp, ?_, ?_⟩
    · intro i hi
      exact hexec i (Nat.zero_le i) hi
    · intro j hj hjl
      exact (hkeep j (Or.inr hj)).trans (replicate_getElem_zero hjl)
  · intro hf hstop
    rw [run_err_eq r cmds env stop hr, run_ret_eq r cmds env stop hr,
      run_statusArr_eq r cmds env stop hr]
    have hall := runFrom_all r.stopOnError env stop cmds 0
      (List.replicate cmds.length zeroStatus) r.cur r.cmdH (by simp)
      (fun j _ _ => hstop j)
      (fun j _ _ hso => absurd hso (by simp [hf]))
    obtain ⟨hres, hlen, hexec, _, _, _⟩ := hall
    refine ⟨hres, rfl, by rw [hlen]; simp, ?_, ?_⟩
    · intro i hi
      exact hexec i (Nat.zero_le i) (by omega)
    · intro hc i hi
      rw [List.getD_eq_getElem?_getD, hexec i (Nat.zero_le i) (by omega)]
      exact hc i

/-- Witness for C1: both branches at the concrete batch `[false, echo]`.
With `stopOnError = true` the run aborts after the first command; with
`stopOnError = false` both commands run and are complete. -/
theorem run_honors_stopOnError_witness :
    ((NewRunSync true).run demoCmds demoEnv (fun _ => false)).2.2 =
      some RunErr.nonzeroExit ∧
    ((NewRunSync true).run demoCmds demoEnv
      (fun _ => false)).1.status[0]? = some demoStatus0 ∧
    ((NewRunSync true).run demoCmds demoEnv
      (fun _ => false)).1.status[1]? = some zeroStatus ∧
    ((NewRunSync false).run demoCmds demoEnv (fun _ => false)).2.2 = none ∧
    ((NewRunSync false).run demoCmds demoEnv
      (fun _ => false)).1.status[1]? = some demoStatus1 := by
  have h1 := (run_honors_stopOnError (NewRunSync true) demoCmds demoEnv
    (fun _ => false) rfl).1 0 rfl (by decide) (fun i _ => rfl)
    (fun i hi => absurd hi (Nat.not_lt_zero i)) (by decide)
  have h2 := (run_honors_stopOnError (NewRunSync false) demoCmds demoEnv
    (fun _ => false) rfl).2 rfl (fun i => rfl)
  refine ⟨h1.1, ?_, h1.2.2.2.2 1 Nat.one_pos (by decide), h2.1, ?_⟩
  · have := h1.2.2.2.1 0 le_rfl
    simpa [demoEnv] using this
  · have := h2.2.2.2.1 1 (by decide)
    simpa [demoEnv] using this

/-- Claim C7: on every return path of an accepted `Run` — full success,
non-zero exit, or cancellation — the `running` flag is cleared before the
call returns, and the same instance is reusable: a subsequent `Run` call is
not rejected as already running, and its returned (status slice, error) pair
is exactly what a freshly constructed runner with the same `stopOnError`
flag would return, because the call starts from a freshly allocated status
array and a fresh, not-cancelled stop channel. -/
theorem run_idle_and_reusable (r : RunSync) (cmds : List Cmd)
    (env : Nat → CmdStatus) (stop : Nat → Bool) (hr : r.running = false) :
    (r.run cmds env stop).1.running = false ∧
    (∀ (cmds2 : List Cmd) (env2 : Nat → CmdStatus) (stop2 : Nat → Bool),
      ((r.run cmds env stop).1.run cmds2 env2 stop2).2.2 ≠
        some RunErr.running ∧
      ((r.run cmds env stop).1.run cmds2 env2 stop2).2.1 =
        ((NewRunSync r.stopOnError).run cmds2 env2 stop2).2.1 ∧
      ((r.run cmds env stop).1.run cmds2 env2 stop2).2.2 =
        ((NewRunSync r.stopOnError).run cmds2 env2 stop2).2.2) := by
  have h1 : (r.run cmds env stop).1.running = false :=
    run_running_eq r cmds env stop hr
  refine ⟨h1, fun cmds2 env2 stop2 => ?_⟩
  have hso := run_so_eq r cmds env stop hr
  have hNr : (NewRunSync r.stopOnError).running = false := rfl
  rw [run_err_eq _ cmds2 env2 stop2 h1, run_ret_eq _ cmds2 env2 stop2 h1,
    run_err_eq _ cmds2 env2 stop2 hNr, run_ret_eq _ cmds2 env2 stop2 hNr,
    hso]
  have hind := runFrom_indep r.stopOnError env2 stop2 cmds2 0
    (List.replicate cmds2.length zeroStatus)
    (r.run cmds env stop).1.cur (r.run cmds env stop).1.cmdH
    (NewRunSync r.stopOnError).cur (NewRunSync r.stopOnError).cmdH
  exact ⟨runFrom_ne_running r.stopOnError env2 stop2 cmds2 0 _ _ _,
    congrArg some hind.1, hind.2⟩

/-- Witness for C7 at a concrete batch run twice. -/
theorem run_idle_and_reusable_witness :
    ((NewRunSync true).run demoCmds demoEnv (fun _ => false)).1.running =
      false ∧
    (((NewRunSync true).run demoCmds demoEnv (fun _ => false)).1.run demoCmds
      demoEnv (fun _ => false)).2.2 ≠ some RunErr.running ∧
    (((NewRunSync true).run demoCmds demoEnv (fun _ => false)).1.run demoCmds
      demoEnv (fun _ => false)).2.1 =
      ((NewRunSync true).run demoCmds demoEnv (fun _ => false)).2.1 := by
  have h := run_idle_and_reusable (NewRunSync true) demoCmds demoEnv
    (fun _ => false) rfl
  obtain ⟨ha, hb⟩ := h
  obtain ⟨hb1, hb2, hb3⟩ := hb demoCmds demoEnv (fun _ => false)
  refine ⟨ha, hb1, hb2.trans ?_⟩
  rfl

/-- Claim C2 (code bug): `Run` does not pre-fill the status array with a
"not started" value carrying the program name and the `-1` exit sentinel.
Line 46 of sync.go is `make([]cmd.Status, len(cmds))`, which fills every
slot with the Go zero value of `cmd.Status`: empty program name and exit
code `0`.  The package's own tests (sync_test.go lines 203-212, 317-326)
expect the never-started slot to hold the program name (`"echo"`) and exit
`-1`, matching the spec, so the code contradicts its own tests.  Evaluated
at the test batch `[false, echo hello]` with `stopOnError = true`: slot 1 of
the returned array is the zero value, whose name is `""` (not `"echo"`) and
whose exit is `0` (not `-1`). -/
theorem run_prefill_is_zero_value :
    ((NewRunSync true).run demoCmds demoEnv (fun _ => false)).1.status[1]? =
      some zeroStatus ∧
    zeroStatus.cmd = "" ∧ zeroStatus.exit = 0 ∧ zeroStatus.pid = 0 ∧
    zeroStatus.complete = false ∧
    zeroStatus.cmd ≠ "echo" ∧ zeroStatus.exit ≠ -1 := by
  refine ⟨by decide, rfl, rfl, rfl, rfl, by decide, by decide⟩

/-- A runner mid-run with a live handle for command 0, as seen by `Stop` and
`Status` while `Run` blocks in the wait of sync.go line 68. -/
def liveRunner : RunSync :=
  { stopOnError := true, running := true, cmdH := some 0, cur := 0,
    status := [demoStatus0, zeroStatus], stopClosed := false }

/-- Claim C4: `Stop` is idempotent and conditionally propagates the
terminate error.  When no run is active it does nothing and returns `nil`
(so repeated calls in that state return `nil`); when a run is active it is
idempotent on the state (closing the already-closed channel is skipped); if
additionally a process handle is live it returns exactly the terminate
error, even on a repeated call whose cancellation signal was already set by
the prior call; if no process is live it returns `nil`. -/
theorem stop_idempotent_and_propagates (r : RunSync) (e e2 : Option String) :
    (r.running = false → r.stop e = (r, none)) ∧
    (r.running = true → r.cmdH = none → (r.stop e).2 = none) ∧
    (r.running = true → r.cmdH.isSome = true → (r.stop e).2 = e) ∧
    ((r.stop e).1.stop e2).1 = (r.stop e).1 ∧
    (r.running = true → r.cmdH.isSome = true →
      (r.stop e).1.stopClosed = true ∧ ((r.stop e).1.stop e2).2 = e2) := by
  refine ⟨?_, ?_, ?_, ?_, ?_⟩
  · intro h
    unfold RunSync.stop
    rw [if_pos h]
  · intro h hc
    rw [stop_ret, if_pos h, hc]
    simp
  · intro h hc
    rw [stop_ret, if_pos h, if_pos hc]
  · rw [stop_state (r.stop e).1 e2, stop_state r e]
    rcases Bool.eq_false_or_eq_true r.running with h | h <;>
      rcases Bool.eq_false_or_eq_true r.stopClosed with h2 | h2 <;>
      simp [h, h2]
  · intro h hc
    constructor
    · rw [stop_state, h]
      simp
    · rw [stop_ret]
      rw [stop_state r e]
      simp only [h]
      simp [hc]

/-- Witness for C4 at concrete states: an idle runner, a running runner with
no live process, and a running runner with a live process stopped twice. -/
theorem stop_idempotent_and_propagates_witness :
    (NewRunSync true).stop (some "sig") = (NewRunSync true, none) ∧
    (liveRunner.stop (some "signal: terminated")).2 =
      some "signal: terminated" ∧
    ((liveRunner.stop (some "signal: terminated")).1.stop (some "again")).1 =
      (liveRunner.stop (some "signal: terminated")).1 ∧
    ((liveRunner.stop (some "signal: terminated")).1.stop
      (some "again")).2 = some "again" := by
  have h1 := stop_idempotent_and_propagates (NewRunSync true) (some "sig")
    (some "x")
  have h2 := stop_idempotent_and_propagates liveRunner
    (some "signal: terminated") (some "again")
  exact ⟨h1.1 rfl, h2.2.2.1 rfl rfl, h2.2.2.2.1,
    (h2.2.2.2.2 rfl rfl).2⟩

/-- An idle runner holding the final statuses of a finished run of the demo
batch. -/
def idleRunner : RunSync :=
  { stopOnError := true, running := false, cmdH := none, cur := -1,
    status := [demoStatus0, zeroStatus], stopClosed := true }

/-- Claim C6 (code bug): `Status` does not return the currently-running
index.  sync.go line 110 declares `func (r *RunSync) Status() []cmd.Status`
— a single return value — while the package's own tests destructure two
(`gotStatus, cur := r.Status()`, sync_test.go lines 30, 98, 185) and the
spec says the full array is returned together with the index or the "none"
sentinel.  In the model: a runner mid-execution of command 0 and an idle
runner produce the very same `Status` return value, so that value cannot
carry the current index.  The refresh behavior itself is as specified: with
a live handle exactly slot `cur` is overwritten with the fresh snapshot and
every other slot keeps its recorded value; with no live handle the array is
returned unchanged. -/
theorem statusOf_returns_no_index :
    (liveRunner.statusOf demoStatus0).2 = (idleRunner.statusOf demoStatus0).2 ∧
    liveRunner.cmdH = some 0 ∧ liveRunner.cur = 0 ∧
    idleRunner.cmdH = none ∧ idleRunner.cur = -1 ∧
    (liveRunner.statusOf demoStatus1).2 = [demoStatus1, zeroStatus] ∧
    (idleRunner.statusOf demoStatus1).2 = [demoStatus0, zeroStatus] := by
  refine ⟨by decide, rfl, rfl, rfl, rfl, by decide, by decide⟩

/-- The one-command batch used to build concrete reachable configurations. -/
def stepCmds : List Cmd := [{ name := "echo", args := ["hi"] }]

/-- A fresh runner, before any call. -/
def cfgA : Config := ⟨NewRunSync true, PC.idle, []⟩

/-- After `Run` is accepted: status allocated, fresh channel, running. -/
def cfgB : Config :=
  ⟨{ cfgA.r with
     status := List.replicate stepCmds.length zeroStatus
     stopClosed := false
     running := true }, PC.check 0, stepCmds⟩

/-- After the stop check of iteration 0 passed. -/
def cfgC : Config := ⟨cfgB.r, PC.launch 0, stepCmds⟩

/-- After the handle for command 0 is published. -/
def cfgD : Config :=
  ⟨{ cfgC.r with cmdH := some 0, cur := (0 : Int) }, PC.wait 0, stepCmds⟩

/-- After command 0 completed and its final status was recorded. -/
def cfgE : Config :=
  ⟨{ cfgD.r with status := cfgD.r.status.set 0 demoStatus0 },
    PC.record 0, stepCmds⟩

/-- After the handle was cleared. -/
def cfgF : Config :=
  ⟨{ cfgE.r with cmdH := none, cur := -1 }, PC.post 0, stepCmds⟩

/-- After `Stop` closed the channel while the run sits at the check. -/
def cfgS : Config := ⟨{ cfgB.r with stopClosed := true }, PC.check 0, stepCmds⟩

theorem step_AB : Step cfgA (Act.runCall stepCmds) cfgB :=
  Step.runEnter cfgA stepCmds rfl rfl

theorem step_BC : Step cfgB Act.tau cfgC :=
  Step.checkPass cfgB 0 rfl (by decide) rfl

theorem step_CD : Step cfgC Act.tau cfgD :=
  Step.launchCmd cfgC 0 rfl

theorem step_DE : Step cfgD Act.tau cfgE :=
  Step.complete cfgD 0 demoStatus0 rfl

theorem step_EF : Step cfgE Act.tau cfgF :=
  Step.clearCmd cfgE 0 rfl

theorem step_BS : Step cfgB (Act.stopRet none) cfgS :=
  Step.stopCall cfgB none

theorem reach_cfgD : Reach cfgD :=
  Reach.next (Reach.next (Reach.next (Reach.init true) step_AB) step_BC)
    step_CD

theorem reach_cfgF : Reach cfgF :=
  Reach.next (Reach.next reach_cfgD step_DE) step_EF

theorem reach_cfgS : Reach cfgS :=
  Reach.next (Reach.next (Reach.init true) step_AB) step_BS

/-- Claim C10: in every reachable configuration with a live process handle,
the current index is a valid index into the status array (`0 ≤ cur` and
`cur < len`), so the in-place refresh of `Status` at `r.status[r.cur]`
cannot index out of bounds. -/
theorem live_handle_cur_in_bounds (c : Config) (i : Nat) (hr : Reach c)
    (hc : c.r.cmdH = some i) :
    0 ≤ c.r.cur ∧ c.r.cur < (c.r.status.length : Int) ∧
    c.r.cur.toNat < c.r.status.length := by
  have hinv := reach_inv hr
  unfold Inv at hinv
  rcases hpc : c.pc with _ | i0 | i0 | i0 | i0 | i0 <;> rw [hpc] at hinv <;>
    simp only [InvAt] at hinv
  · exact absurd (hc.symm.trans hinv.2) (by simp)
  · exact absurd (hc.symm.trans hinv.2.1) (by simp)
  · exact absurd (hc.symm.trans hinv.2.1) (by simp)
  · obtain ⟨_, hb, hcur, hlen, hlt, _⟩ := hinv
    rw [hcur, hlen]
    refine ⟨by omega, by omega, ?_⟩
    simpa using hlt
  · obtain ⟨_, hb, hcur, hlen, hlt, _⟩ := hinv
    rw [hcur, hlen]
    refine ⟨by omega, by omega, ?_⟩
    simpa using hlt
  · exact absurd (hc.symm.trans hinv.2.1) (by simp)

/-- Witness for C10 at the concrete reachable configuration blocked in the
wait for command 0. -/
theorem live_handle_cur_in_bounds_witness :
    0 ≤ cfgD.r.cur ∧ cfgD.r.cur < (cfgD.r.status.length : Int) ∧
    cfgD.r.cur.toNat < cfgD.r.status.length :=
  live_handle_cur_in_bounds cfgD 0 reach_cfgD rfl

/-- Claim C9 (counterexample): the claim fails on a freshly constructed
runner, a reachable state with no live handle whose current-index field is
the Go zero value 0, not the -1 sentinel — `NewRunSync` never initializes
`cur` (sync.go lines 26-32). -/
theorem fresh_runner_cur_not_sentinel :
    Reach ⟨NewRunSync true, PC.idle, []⟩ ∧ (NewRunSync true).cmdH = none ∧
    (NewRunSync true).cur = 0 ∧ (NewRunSync true).cur ≠ -1 :=
  ⟨Reach.init true, rfl, rfl, by decide⟩

/-- Claim C9 (amended): the index field equals the -1 sentinel in the
handle-free states that follow a command execution — after each command
completes and the handle is cleared (before the next launch), and after an
accepted `Run` that launched at least one command returns — while a freshly
constructed runner carries the uninitialized zero value 0 in that field (and
no live handle). -/
theorem cur_sentinel_after_execution :
    (∀ (c : Config) (i : Nat), Reach c → c.pc = PC.post i →
      c.r.cur = -1 ∧ c.r.cmdH = none) ∧
    (∀ (r : RunSync) (cmds : List Cmd) (env : Nat → CmdStatus)
      (stop : Nat → Bool), r.running = false → 0 < cmds.length →
      stop 0 = false → (r.run cmds env stop).1.cur = -1 ∧
      (r.run cmds env stop).1.cmdH = none) ∧
    (∀ so : Bool, (NewRunSync so).cur = 0 ∧ (NewRunSync so).cmdH = none) := by
  refine ⟨?_, ?_, fun so => ⟨rfl, rfl⟩⟩
  · intro c i hr hpc
    have hinv := reach_inv hr
    unfold Inv at hinv
    rw [hpc] at hinv
    simp only [InvAt] at hinv
    exact ⟨hinv.2.2.1, hinv.2.1⟩
  · intro r cmds env stop hr hlen hs0
    rw [run_cur_eq r cmds env stop hr, run_cmdH_eq r cmds env stop hr]
    rcases cmds with _ | ⟨c0, rest⟩
    · simp at hlen
    · have heq : runFrom r.stopOnError env stop (c0 :: rest) 0
          (List.replicate (c0 :: rest).length zeroStatus) r.cur r.cmdH =
          if r.stopOnError = true ∧ (env 0).exit ≠ 0 then
            ((List.replicate (c0 :: rest).length zeroStatus).set 0 (env 0),
              -1, none, some RunErr.nonzeroExit)
          else
            runFrom r.stopOnError env stop rest 1
              ((List.replicate (c0 :: rest).length zeroStatus).set 0 (env 0))
              (-1) none := by
        rw [runFrom, if_neg (by simp [hs0])]
      rw [heq]
      by_cases hc : r.stopOnError = true ∧ (env 0).exit ≠ 0
      · rw [if_pos hc]
        exact ⟨rfl, rfl⟩
      · rw [if_neg hc]
        exact runFrom_clear r.stopOnError env stop rest 1 _

/-- Witness for C9's amended statement: the concrete reachable post-command
configuration, a concrete completed run, and the fresh runner. -/
theorem cur_sentinel_after_execution_witness :
    (cfgF.r.cur = -1 ∧ cfgF.r.cmdH = none) ∧
    (((NewRunSync false).run demoCmds demoEnv (fun _ => false)).1.cur = -1 ∧
      ((NewRunSync false).run demoCmds demoEnv
        (fun _ => false)).1.cmdH = none) ∧
    (NewRunSync true).cur = 0 := by
  have h := cur_sentinel_after_execution
  exact ⟨h.1 cfgF 0 reach_cfgF rfl,
    h.2.1 (NewRunSync false) demoCmds demoEnv (fun _ => false) rfl
      (by decide) rfl, (h.2.2 true).1⟩

theorem statusOf_fields (r : RunSync) (snap : CmdStatus) :
    (r.statusOf snap).1.running = r.running ∧
    (r.statusOf snap).1.stopClosed = r.stopClosed ∧
    (r.statusOf snap).1.cmdH = r.cmdH ∧
    (r.statusOf snap).1.cur = r.cur := by
  unfold RunSync.statusOf
  by_cases hc : r.cmdH.isSome = true <;> simp [hc]

/-- One step of the system never resets a closed stop channel while a run is
active (only `runEnter`, which requires the idle program counter, replaces
the channel). -/
theorem latch_step {c c2 : Config} {a : Act} (hs : Step c a c2)
    (hpc : c.pc ≠ PC.idle) (hcl : c.r.stopClosed = true) :
    c2.r.stopClosed = true := by
  cases hs with
  | runBusy h => exact hcl
  | runEnter cs h1 h2 => exact absurd h1 hpc
  | checkStop i h1 h2 h3 => exact hcl
  | exhaust i h1 h2 => exact hcl
  | checkPass i h1 h2 h3 => exact hcl
  | launchCmd i h1 => exact hcl
  | complete i s h1 => exact hcl
  | clearCmd i h1 => exact hcl
  | postErr i h1 h2 h3 => exact hcl
  | postOk i h1 h2 => exact hcl
  | stopCall e =>
    rw [stop_state]
    simp [hcl]
  | statusCall snap => exact ((statusOf_fields c.r snap).2.1).trans hcl

/-- Step sequences that contain no new `Run` acceptance (no `runCall`
label): the executions available to the system for the rest of the current
run. -/
inductive StepsNoRun : Config → Config → Prop where
  | refl (c : Config) : StepsNoRun c c
  | next {c c1 c2 : Config} {a : Act} : StepsNoRun c c1 → Step c1 a c2 →
      (∀ cs, a ≠ Act.runCall cs) → StepsNoRun c c2

/-- From a configuration whose stop channel is closed while `Run` sits at a
pre-launch check, the rest of the run can only stay at that check (observer
steps) or return to idle: no continuation without a new `Run` call ever
moves past the check, and the channel stays closed. -/
theorem steps_norun_stalled {c c2 : Config} {i : Nat}
    (hcl : c.r.stopClosed = true) (hpc : c.pc = PC.check i)
    (hsteps : StepsNoRun c c2) :
    (c2.pc = PC.check i ∨ c2.pc = PC.idle) ∧ c2.r.stopClosed = true := by
  induction hsteps with
  | refl => exact ⟨Or.inl hpc, hcl⟩
  | next hst hstep hna ih =>
    obtain ⟨hpc2, hcl2⟩ := ih
    cases hstep with
    | runBusy h => exact ⟨hpc2, hcl2⟩
    | runEnter cs h1 h2 => exact absurd rfl (hna cs)
    | checkStop i0 h1 h2 h3 => exact ⟨Or.inr rfl, hcl2⟩
    | exhaust i0 h1 h2 => exact ⟨Or.inr rfl, hcl2⟩
    | checkPass i0 h1 h2 h3 => exact absurd hcl2 (by rw [h3]; simp)
    | launchCmd i0 h1 =>
      rcases hpc2 with h | h <;> rw [h] at h1 <;> exact absurd h1 (by simp)
    | complete i0 s h1 =>
      rcases hpc2 with h | h <;> rw [h] at h1 <;> exact absurd h1 (by simp)
    | clearCmd i0 h1 =>
      rcases hpc2 with h | h <;> rw [h] at h1 <;> exact absurd h1 (by simp)
    | postErr i0 h1 h2 h3 =>
      rcases hpc2 with h | h <;> rw [h] at h1 <;> exact absurd h1 (by simp)
    | postOk i0 h1 h2 =>
      rcases hpc2 with h | h <;> rw [h] at h1 <;> exact absurd h1 (by simp)
    | stopCall e =>
      refine ⟨hpc2, ?_⟩
      rw [stop_state]
      simp [hcl2]
    | statusCall snap =>
      exact ⟨hpc2, ((statusOf_fields _ snap).2.1).trans hcl2⟩

/-- Claim C5: the cancellation signal is a one-way latch per run.  First
conjunct: no step taken while a run is active (program counter not idle)
resets a closed channel.  Second conjunct: from a closed channel at a
pre-launch check, no continuation of the current run (no new `Run` call)
ever reaches a launch, wait or record point — no further command is
launched.  Third conjunct: at that next pre-launch check `Run` can only
return `ErrStopped` immediately (every `Run`-return step from there carries
exactly the current status slice and `ErrStopped`), and all not-yet-reached
slots still hold the initial "not started" value. -/
theorem stop_latch_halts_run :
    (∀ (c c2 : Config) (a : Act), Step c a c2 → c.pc ≠ PC.idle →
      c.r.stopClosed = true → c2.r.stopClosed = true) ∧
    (∀ (c c2 : Config) (i : Nat), c.r.stopClosed = true →
      c.pc = PC.check i → StepsNoRun c c2 →
      ∀ j, c2.pc ≠ PC.launch j ∧ c2.pc ≠ PC.wait j ∧ c2.pc ≠ PC.record j) ∧
    (∀ (c : Config) (i : Nat), Reach c → c.pc = PC.check i →
      i < c.cmds.length → c.r.stopClosed = true →
      Step c (Act.runRet (some c.r.status) (some RunErr.stopped))
        ⟨{ c.r with running := false }, PC.idle, c.cmds⟩ ∧
      (∀ (st : Option (List CmdStatus)) (e : Option RunErr) (c2 : Config),
        Step c (Act.runRet st e) c2 →
        st = some c.r.status ∧ e = some RunErr.stopped) ∧
      (∀ j, i ≤ j → c.r.status.getD j zeroStatus = zeroStatus)) := by
  refine ⟨fun c c2 a hs => latch_step hs, ?_, ?_⟩
  · intro c c2 i hcl hpc hsteps j
    obtain ⟨hp, _⟩ := steps_norun_stalled hcl hpc hsteps
    rcases hp with hp | hp <;> rw [hp] <;>
      exact ⟨by simp, by simp, by simp⟩
  · intro c i hr hpc hlt hcl
    refine ⟨Step.checkStop c i hpc hlt hcl, ?_, ?_⟩
    · intro st e c2 hs
      cases hs with
      | checkStop i0 h1 h2 h3 => exact ⟨rfl, rfl⟩
      | exhaust i0 h1 h2 =>
        have hii : i0 = i := by
          have := hpc.symm.trans h1
          injection this with h
          exact h.symm
        rw [hii] at h2
        omega
      | postErr i0 h1 h2 h3 =>
        have := hpc.symm.trans h1
        exact absurd this (by simp)
    · intro j hij
      have hinv := reach_inv hr
      unfold Inv at hinv
      rw [hpc] at hinv
      simp only [InvAt] at hinv
      exact hinv.2.2.2.2 j hij

/-- Witness for C5 at the concrete reachable stopped configuration. -/
theorem stop_latch_halts_run_witness :
    cfgS.pc ≠ PC.launch 0 ∧
    cfgS.r.status.getD 0 zeroStatus = zeroStatus ∧
    Step cfgS (Act.runRet (some cfgS.r.status) (some RunErr.stopped))
      ⟨{ cfgS.r with running := false }, PC.idle, cfgS.cmds⟩ ∧
    cfgS.r.stopClosed = true := by
  have h3 := stop_latch_halts_run.2.2 cfgS 0 reach_cfgS rfl (by decide) rfl
  have h2 := stop_latch_halts_run.2.1 cfgS cfgS 0 rfl rfl
    (StepsNoRun.refl cfgS) 0
  exact ⟨h2.1, h3.2.2 0 le_rfl, h3.1, rfl⟩

end GoCmdRun
